import Mathlib

/-!
Verification of the `resource_lib` repository.

Part 1 embeds the ninja build configurator (`configure.py`): the script is
modelled as a pure function from its observable inputs (target platform,
toolchain config list, monolithic flag, subninja flag) to the list of build
targets it generates.

Part 2 models the resource compilation/caching pipeline that the
specification describes (source backend, change tracker, compiled cache,
single-flight compile, bundler), since only its build wiring is present in
the repository sources.
-/

namespace ResourceLib

/-! ## Part 1: the build configurator (`configure.py`) -/

/-- Target platforms distinguished by the configurator via the
`target.is_windows / is_ios / is_android / is_tizen / is_macos` predicates.
`linux` stands for any platform where all of these are false. -/
inductive Platform
  | windows
  | macos
  | ios
  | android
  | tizen
  | linux
deriving DecidableEq

/-- The three kinds of generated targets: `generator.lib`, `generator.bin`,
`generator.app`. -/
inductive TargetKind
  | lib
  | bin
  | app
deriving DecidableEq

/-- One generated build target, with the arguments the script passes to the
generator calls.  Implicit dependencies are recorded by module name. -/
structure BuildTarget where
  kind : TargetKind
  module : String
  sources : List String
  binname : String
  basepath : String
  implicitDeps : List String
  dependlibs : List String
  libs : List String
  resources : List String
  configs : List String
deriving DecidableEq

/-- `dependlibs = ['resource', 'network', 'foundation']` (configure.py line 12). -/
def dependlibs : List String := ["resource", "network", "foundation"]

/-- `os.path.join(a, b)` for the relative paths the script builds. -/
def pathJoin (a b : String) : String := a ++ "/" ++ b

/-- The source list of the `resource` library target (configure.py lines 19-21). -/
def resourceLibSources : List String :=
  ["bundle.c", "change.c", "compile.c", "compiled.c", "event.c", "import.c", "local.c",
   "platform.c", "remote.c", "resource.c", "source.c", "sourced.c", "stream.c", "version.c"]

/-- `resource_lib = generator.lib(module = 'resource', sources = [...])`. -/
def resource_lib : BuildTarget :=
  { kind := TargetKind.lib
    module := "resource"
    sources := resourceLibSources
    binname := "resource"
    basepath := ""
    implicitDeps := []
    dependlibs := []
    libs := []
    resources := []
    configs := [] }

/-- `network_libs` (configure.py lines 23-25): `['ws2_32', 'iphlpapi']` on
Windows, empty otherwise. -/
def network_libs (t : Platform) : List String :=
  if t = Platform.windows then ["ws2_32", "iphlpapi"] else []

/-- The config filter on line 28: configs of the toolchain that are neither
`profile` nor `deploy`. -/
def toolConfigs (configs : List String) : List String :=
  configs.filter (fun config => !(config == "profile" || config == "deploy"))

/-- One `generator.bin(...)` call from the tools block (configure.py lines 30-32). -/
def toolBin (t : Platform) (name : String) (sources : List String)
    (cs : List String) : BuildTarget :=
  { kind := TargetKind.bin
    module := name
    sources := sources
    binname := name
    basepath := "tools"
    implicitDeps := [resource_lib.module]
    dependlibs := dependlibs
    libs := network_libs t
    resources := []
    configs := cs }

/-- The tools block (configure.py lines 27-32): on non-mobile platforms, when
some toolchain config survives the `profile`/`deploy` filter, generate the
`resource`, `sourced` and `compiled` binaries. -/
def toolTargets (t : Platform) (configs : List String) : List BuildTarget :=
  if ¬ (t = Platform.ios) ∧ ¬ (t = Platform.android) ∧ ¬ (t = Platform.tizen) then
    if toolConfigs configs = [] then []
    else
      [toolBin t "resource" ["main.c"] (toolConfigs configs),
       toolBin t "sourced" ["main.c", "server.c"] (toolConfigs configs),
       toolBin t "compiled" ["main.c", "server.c"] (toolConfigs configs)]
  else []

/-- `test_resources` of the monolithic test branch (configure.py lines 48-63). -/
def testResources (t : Platform) : List String :=
  if t = Platform.ios then
    ["test-all.plist", "Images.xcassets", "test-all.xib"].map
      (fun item => pathJoin "all" (pathJoin "ios" item))
  else if t = Platform.android then
    ["AndroidManifest.xml", pathJoin "layout" "main.xml", pathJoin "values" "strings.xml",
     pathJoin "drawable-ldpi" "icon.png", pathJoin "drawable-mdpi" "icon.png",
     pathJoin "drawable-hdpi" "icon.png", pathJoin "drawable-xhdpi" "icon.png",
     pathJoin "drawable-xxhdpi" "icon.png", pathJoin "drawable-xxxhdpi" "icon.png"].map
      (fun item => pathJoin "all" (pathJoin "android" item))
  else if t = Platform.tizen then
    ["tizen-manifest.xml", pathJoin "res" "tizenapp.png"].map
      (fun item => pathJoin "all" (pathJoin "tizen" item))
  else []

/-- `test_extrasources` of the monolithic test branch (configure.py lines 50-59). -/
def testExtraSources (t : Platform) : List String :=
  if t = Platform.ios then
    [pathJoin "all" (pathJoin "ios" "viewcontroller.m")]
  else if t = Platform.android then
    [pathJoin "all" (pathJoin "android" (pathJoin "java" (pathJoin "com"
      (pathJoin "rampantpixels" (pathJoin "resource" (pathJoin "test" "TestActivity.java"))))))]
  else []

/-- The test-target block (configure.py lines 40-76): one fat `test-all`
binary (an app bundle on macOS/iOS/Android/Tizen) in the monolithic branch;
otherwise a `test-all` runner plus one binary per test case. -/
def testTargets (t : Platform) (monolithic : Bool) : List BuildTarget :=
  if monolithic = true ∨ t = Platform.ios ∨ t = Platform.android ∨ t = Platform.tizen then
    let cases := ["source", "all"]
    let srcs := cases.map (fun m => pathJoin m "main.c") ++ testExtraSources t
    let kind :=
      if t = Platform.macos ∨ t = Platform.ios ∨ t = Platform.android ∨ t = Platform.tizen then
        TargetKind.app
      else TargetKind.bin
    [{ kind := kind
       module := ""
       sources := srcs
       binname := "test-all"
       basepath := "test"
       implicitDeps := [resource_lib.module]
       dependlibs := []
       libs := ["test"] ++ dependlibs ++ network_libs t
       resources := testResources t
       configs := [] }]
  else
    { kind := TargetKind.bin
      module := "all"
      sources := ["main.c"]
      binname := "test-all"
      basepath := "test"
      implicitDeps := [resource_lib.module]
      dependlibs := []
      libs := ["resource", "network", "foundation"] ++ network_libs t
      resources := []
      configs := [] } ::
    (["source"].map (fun test =>
      { kind := TargetKind.bin
        module := test
        sources := ["main.c"]
        binname := "test-" ++ test
        basepath := "test"
        implicitDeps := [resource_lib.module]
        dependlibs := []
        libs := ["test"] ++ dependlibs ++ network_libs t
        resources := []
        configs := [] }))

/-- The whole configurator run: library target, then the tools block, then —
unless the generator reports being a subninja (`sys.exit()` on line 36) —
the test targets. -/
def configure (t : Platform) (configs : List String) (monolithic : Bool)
    (subninja : Bool) : List BuildTarget :=
  [resource_lib] ++ toolTargets t configs ++
    (if subninja then [] else testTargets t monolithic)

/-- The library targets among a list of generated targets. -/
def libTargets (ts : List BuildTarget) : List BuildTarget :=
  ts.filter (fun tg => tg.kind == TargetKind.lib)

/-- The tool-directory targets among a list of generated targets. -/
def toolDirTargets (ts : List BuildTarget) : List BuildTarget :=
  ts.filter (fun tg => tg.basepath == "tools")

lemma libTargets_toolTargets (t : Platform) (configs : List String) :
    libTargets (toolTargets t configs) = [] := by
  unfold toolTargets
  split
  · split
    · rfl
    · rfl
  · rfl

lemma libTargets_testTargets (t : Platform) (m : Bool) :
    libTargets (testTargets t m) = [] := by
  unfold testTargets
  split
  · split <;> rfl
  · rfl

/-- C1: the configurator always generates exactly one library target, the
`resource` library, and its sources are exactly the fourteen enumerated
modules, in order. -/
theorem configure_resource_lib_sources (t : Platform) (configs : List String)
    (monolithic subninja : Bool) :
    libTargets (configure t configs monolithic subninja) = [resource_lib] ∧
    resource_lib.sources =
      ["bundle.c", "change.c", "compile.c", "compiled.c", "event.c", "import.c", "local.c",
       "platform.c", "remote.c", "resource.c", "source.c", "sourced.c", "stream.c",
       "version.c"] := by
  refine ⟨?_, rfl⟩
  unfold configure libTargets
  rw [List.filter_append, List.filter_append]
  rw [show List.filter (fun tg => tg.kind == TargetKind.lib) (toolTargets t configs) =
        libTargets (toolTargets t configs) from rfl, libTargets_toolTargets]
  cases subninja
  · rw [if_neg (by simp),
      show List.filter (fun tg => tg.kind == TargetKind.lib) (testTargets t monolithic) =
        libTargets (testTargets t monolithic) from rfl, libTargets_testTargets]
    rfl
  · rfl

lemma toolDirTargets_testTargets (t : Platform) (m : Bool) :
    toolDirTargets (testTargets t m) = [] := by
  unfold testTargets toolDirTargets
  split
  · split <;> rfl
  · rfl

lemma toolDirTargets_configure (t : Platform) (configs : List String)
    (monolithic subninja : Bool) :
    toolDirTargets (configure t configs monolithic subninja) = toolTargets t configs := by
  unfold configure toolDirTargets
  rw [List.filter_append, List.filter_append]
  have htools : List.filter (fun tg => tg.basepath == "tools") (toolTargets t configs) =
      toolTargets t configs := by
    unfold toolTargets
    split
    · split <;> rfl
    · rfl
  rw [htools]
  have htest : List.filter (fun tg => tg.basepath == "tools")
      (if subninja then [] else testTargets t monolithic) = [] := by
    cases subninja
    · rw [if_neg (by simp)]
      exact toolDirTargets_testTargets t monolithic
    · rfl
  rw [htest]
  simp [resource_lib]

/-- C2: when the tools block runs (non-mobile platform, some config left after
the `profile`/`deploy` filter), the generated tool-directory targets are
exactly the binaries `resource`, `sourced` and `compiled`, in that order; the
client is built from `main.c` alone, the two daemons from `main.c` and
`server.c`, and each has the resource library as its implicit dependency. -/
theorem configure_tool_binaries (t : Platform) (configs : List String)
    (monolithic subninja : Bool)
    (h1 : ¬ (t = Platform.ios) ∧ ¬ (t = Platform.android) ∧ ¬ (t = Platform.tizen))
    (h2 : toolConfigs configs ≠ []) :
    (toolDirTargets (configure t configs monolithic subninja)).map
        (fun tg => (tg.binname, tg.sources, tg.implicitDeps)) =
      [("resource", ["main.c"], [resource_lib.module]),
       ("sourced", ["main.c", "server.c"], [resource_lib.module]),
       ("compiled", ["main.c", "server.c"], [resource_lib.module])] := by
  rw [toolDirTargets_configure]
  unfold toolTargets
  rw [if_pos h1, if_neg h2]
  rfl

/-- Witness for C2 on a concrete configuration. -/
theorem configure_tool_binaries_witness :
    (toolDirTargets (configure Platform.linux ["develop"] false false)).map
        (fun tg => (tg.binname, tg.sources, tg.implicitDeps)) =
      [("resource", ["main.c"], [resource_lib.module]),
       ("sourced", ["main.c", "server.c"], [resource_lib.module]),
       ("compiled", ["main.c", "server.c"], [resource_lib.module])] :=
  configure_tool_binaries Platform.linux ["develop"] false false
    (by decide) (by decide)

/-- C8: when the generator reports being a subninja, the configurator stops
before the test section: the generated targets are exactly the library
followed by the tools block, and none of them lives under `test`. -/
theorem configure_subninja_no_tests (t : Platform) (configs : List String)
    (monolithic : Bool) :
    configure t configs monolithic true = [resource_lib] ++ toolTargets t configs ∧
    ∀ tg ∈ configure t configs monolithic true, tg.basepath ≠ "test" := by
  have hconf : configure t configs monolithic true = [resource_lib] ++ toolTargets t configs := by
    unfold configure
    simp
  refine ⟨hconf, ?_⟩
  intro tg htg
  rw [hconf] at htg
  rcases List.mem_append.mp htg with h | h
  · rcases List.mem_singleton.mp h with rfl
    simp [resource_lib]
  · have hbp : tg.basepath = "tools" := by
      unfold toolTargets at h
      split at h
      · split at h
        · simp at h
        · simp only [List.mem_cons, List.mem_singleton, List.not_mem_nil, or_false] at h
          rcases h with rfl | rfl | rfl <;> rfl
      · simp at h
    rw [hbp]
    simp

/-- Witness for C8 on a concrete configuration. -/
theorem configure_subninja_no_tests_witness :
    configure Platform.linux ["develop"] false true =
      [resource_lib] ++ toolTargets Platform.linux ["develop"] ∧
    resource_lib.basepath ≠ "test" :=
  ⟨(configure_subninja_no_tests Platform.linux ["develop"] false).1,
   (configure_subninja_no_tests Platform.linux ["develop"] false).2 resource_lib
     (by decide)⟩

lemma mem_toolConfigs (configs : List String) (c : String) :
    c ∈ toolConfigs configs ↔ c ∈ configs ∧ ¬ (c = "profile") ∧ ¬ (c = "deploy") := by
  simp only [toolConfigs, List.mem_filter, Bool.not_eq_eq_eq_not, Bool.not_true,
    Bool.or_eq_false_iff, beq_eq_false_iff_ne, ne_eq]

lemma configs_of_mem_toolTargets (t : Platform) (configs : List String)
    (tg : BuildTarget) (h : tg ∈ toolTargets t configs) :
    tg.configs = toolConfigs configs := by
  unfold toolTargets at h
  split at h
  · split at h
    · simp at h
    · simp only [List.mem_cons, List.mem_singleton, List.not_mem_nil, or_false] at h
      rcases h with rfl | rfl | rfl <;> rfl
  · simp at h

/-- C9: tool binaries appear in the generated build exactly when the platform
is none of iOS/Android/Tizen and some toolchain config is neither `profile`
nor `deploy`; when every config is `profile` or `deploy`, no tool binary is
generated; and every generated tool binary is built exactly for the toolchain
configs that are neither `profile` nor `deploy`. -/
theorem configure_tools_condition (t : Platform) (configs : List String)
    (monolithic subninja : Bool) :
    (toolDirTargets (configure t configs monolithic subninja) ≠ [] ↔
      (¬ (t = Platform.ios) ∧ ¬ (t = Platform.android) ∧ ¬ (t = Platform.tizen) ∧
        ∃ c ∈ configs, ¬ (c = "profile") ∧ ¬ (c = "deploy"))) ∧
    ((∀ c ∈ configs, c = "profile" ∨ c = "deploy") →
      toolDirTargets (configure t configs monolithic subninja) = []) ∧
    (∀ tg ∈ toolDirTargets (configure t configs monolithic subninja),
      tg.configs = toolConfigs configs ∧
      ∀ c, c ∈ tg.configs ↔ (c ∈ configs ∧ ¬ (c = "profile") ∧ ¬ (c = "deploy"))) := by
  rw [toolDirTargets_configure]
  have hfilter : toolConfigs configs = [] ↔ ∀ c ∈ configs, c = "profile" ∨ c = "deploy" := by
    simp only [toolConfigs, List.filter_eq_nil_iff]
    constructor
    · intro h c hc
      have hcb := h c hc
      by_cases hp : c = "profile"
      · exact Or.inl hp
      · refine Or.inr ?_
        by_contra hd
        apply hcb
        simp [hp, hd]
    · intro h c hc
      rcases h c hc with rfl | rfl <;> simp
  constructor
  · constructor
    · intro hne
      unfold toolTargets at hne
      by_cases h1 : ¬ (t = Platform.ios) ∧ ¬ (t = Platform.android) ∧ ¬ (t = Platform.tizen)
      · rw [if_pos h1] at hne
        by_cases h2 : toolConfigs configs = []
        · rw [if_pos h2] at hne
          exact absurd rfl hne
        · have hx : ¬ ∀ c ∈ configs, c = "profile" ∨ c = "deploy" :=
            fun hall => h2 (hfilter.mpr hall)
          push_neg at hx
          rcases hx with ⟨c, hc, hcc⟩
          exact ⟨h1.1, h1.2.1, h1.2.2, c, hc, hcc.1, hcc.2⟩
      · rw [if_neg h1] at hne
        exact absurd rfl hne
    · rintro ⟨ha, hb, hc, c, hcm, hcp, hcd⟩
      unfold toolTargets
      rw [if_pos ⟨ha, hb, hc⟩]
      have h2 : ¬ toolConfigs configs = [] := fun he => by
        rcases hfilter.mp he c hcm with h | h
        · exact hcp h
        · exact hcd h
      rw [if_neg h2]
      simp
  constructor
  · intro hall
    unfold toolTargets
    split
    · rw [if_pos (hfilter.mpr hall)]
    · rfl
  · intro tg htg
    have hcf := configs_of_mem_toolTargets t configs tg htg
    refine ⟨hcf, ?_⟩
    intro c
    rw [hcf]
    exact mem_toolConfigs configs c

/-- Witness for C9 on a concrete configuration: with only `profile` and
`deploy` configs, no tool binary is generated; with a `develop` config, the
generated `resource` tool binary is built exactly for the `develop` config. -/
theorem configure_tools_condition_witness :
    toolDirTargets (configure Platform.windows ["profile", "deploy"] false false) = [] ∧
    ((toolBin Platform.windows "resource" ["main.c"] (toolConfigs ["develop"])).configs =
        toolConfigs ["develop"] ∧
      ∀ c, c ∈ (toolBin Platform.windows "resource" ["main.c"] (toolConfigs ["develop"])).configs ↔
        (c ∈ ["develop"] ∧ ¬ (c = "profile") ∧ ¬ (c = "deploy"))) :=
  ⟨(configure_tools_condition Platform.windows ["profile", "deploy"] false false).2.1
     (by decide),
   (configure_tools_condition Platform.windows ["develop"] false false).2.2
     (toolBin Platform.windows "resource" ["main.c"] (toolConfigs ["develop"]))
     (by decide)⟩

lemma libs_suffix_of_mem_toolTargets (t : Platform) (configs : List String)
    (tg : BuildTarget) (h : tg ∈ toolTargets t configs) :
    ∃ pre, tg.libs = pre ++ network_libs t := by
  unfold toolTargets at h
  split at h
  · split at h
    · simp at h
    · simp only [List.mem_cons, List.mem_singleton, List.not_mem_nil, or_false] at h
      rcases h with rfl | rfl | rfl <;> exact ⟨[], rfl⟩
  · simp at h

lemma libs_suffix_of_mem_testTargets (t : Platform) (m : Bool) (tg : BuildTarget)
    (h : tg ∈ testTargets t m) : ∃ pre, tg.libs = pre ++ network_libs t := by
  unfold testTargets at h
  split at h
  · simp only [List.mem_singleton] at h
    subst h
    exact ⟨"test" :: dependlibs, rfl⟩
  · simp only [List.map, List.mem_cons, List.mem_singleton, List.not_mem_nil, or_false] at h
    rcases h with rfl | rfl
    · exact ⟨["resource", "network", "foundation"], rfl⟩
    · exact ⟨"test" :: dependlibs, rfl⟩

/-- C10: the extra network link-library list is `['ws2_32', 'iphlpapi']` on
Windows and empty on every other platform, and every generated non-library
target (tool binaries and test binaries alike) has it appended to its `libs`
list. -/
theorem network_libs_tools_and_tests (t : Platform) (configs : List String)
    (monolithic subninja : Bool) :
    (network_libs Platform.windows = ["ws2_32", "iphlpapi"] ∧
      (¬ (t = Platform.windows) → network_libs t = [])) ∧
    ∀ tg ∈ configure t configs monolithic subninja,
      ¬ (tg.kind = TargetKind.lib) → ∃ pre, tg.libs = pre ++ network_libs t := by
  refine ⟨⟨rfl, fun h => by simp [network_libs, h]⟩, ?_⟩
  intro tg htg hkind
  unfold configure at htg
  rcases List.mem_append.mp htg with h | h
  · rcases List.mem_append.mp h with h | h
    · rcases List.mem_singleton.mp h with rfl
      exact absurd rfl hkind
    · exact libs_suffix_of_mem_toolTargets t configs tg h
  · cases subninja
    · rw [if_neg (by simp)] at h
      exact libs_suffix_of_mem_testTargets t monolithic tg h
    · simp at h

/-- Witness for C10 on a concrete configuration: the Windows `resource` tool
binary links the network libraries as a suffix of its libs. -/
theorem network_libs_tools_and_tests_witness :
    ∃ pre, (toolBin Platform.windows "resource" ["main.c"]
        (toolConfigs ["develop"])).libs = pre ++ network_libs Platform.windows :=
  (network_libs_tools_and_tests Platform.windows ["develop"] false false).2
    (toolBin Platform.windows "resource" ["main.c"] (toolConfigs ["develop"]))
    (by decide) (by decide)

/-! ## Part 2: the resource pipeline, modelled from the spec

The library modules' implementations are not part of the repository sources;
the definitions below are modelled from the specification text (§3-§4.8) and
each doc comment names the section it follows. -/

/-- Modelled from the spec: a SourceRecord of the Source Backend (spec §3) —
property map, payload, content hash and change counter; the payload stream is
modelled as the byte list it yields, a ResourceID as a natural number. -/
structure SourceRecord where
  props : List (String × String)
  payload : List Nat
  hash : Nat
  counter : Nat
deriving DecidableEq

/-- Modelled from the spec: the canonical content hash of the Change Tracker
(spec §4.4) over the payload bytes, a 64-bit accumulating hash. -/
def contentHash (payload : List Nat) : Nat :=
  payload.foldl (fun acc b => (acc * 131 + b + 1) % (2 ^ 64)) 5381

/-- Modelled from the spec: the state of a local Source Backend (spec §4.3) —
the map from ResourceID to its current SourceRecord. -/
def SourceDB := Nat → Option SourceRecord

/-- Point update of a Source Backend state. -/
def SourceDB.set (db : SourceDB) (id : Nat) (r : SourceRecord) : SourceDB :=
  fun i => if i = id then some r else db i

/-- Modelled from the spec: `store(ResourceID, properties, payload_stream) ->
new change counter` (spec §4.3/§4.4) — content-hashes the payload; when the
hash equals the prior record's stored hash the change counter is not
incremented (idempotent no-op write), otherwise the counter is bumped; a
first store creates the record at counter 0 (spec §8 scenario).  Returns the
new backend state and the returned change counter. -/
def store (db : SourceDB) (id : Nat) (props : List (String × String))
    (payload : List Nat) : SourceDB × Nat :=
  match db id with
  | none =>
      (db.set id ⟨props, payload, contentHash payload, 0⟩, 0)
  | some r =>
      if contentHash payload = r.hash then
        (db.set id { r with props := props }, r.counter)
      else
        (db.set id ⟨props, payload, contentHash payload, r.counter + 1⟩, r.counter + 1)

/-- C3: a store whose payload hashes identically to the previously stored
record's content hash returns the unchanged change counter and leaves the
stored counter unchanged. -/
theorem store_idempotent (db : SourceDB) (id : Nat) (props : List (String × String))
    (payload : List Nat) (r : SourceRecord) (hdb : db id = some r)
    (hh : contentHash payload = r.hash) :
    (store db id props payload).2 = r.counter ∧
    ∃ r2, (store db id props payload).1 id = some r2 ∧ r2.counter = r.counter := by
  unfold store
  rw [hdb]
  dsimp only
  rw [if_pos hh]
  exact ⟨rfl, { r with props := props }, by simp [SourceDB.set], rfl⟩

/-- A concrete source record used by the witnesses below. -/
def sampleRecord : SourceRecord :=
  ⟨[("type", "texture")], [1, 2, 3], contentHash [1, 2, 3], 5⟩

/-- A concrete one-record source backend used by the witnesses below. -/
def sampleDB : SourceDB := fun i => if i = 7 then some sampleRecord else none

/-- Witness for C3: re-storing byte-identical payload leaves counter 5 at 5. -/
theorem store_idempotent_witness :
    (store sampleDB 7 [("k", "v")] [1, 2, 3]).2 = sampleRecord.counter ∧
    ∃ r2, (store sampleDB 7 [("k", "v")] [1, 2, 3]).1 7 = some r2 ∧
      r2.counter = sampleRecord.counter :=
  store_idempotent sampleDB 7 [("k", "v")] [1, 2, 3] sampleRecord rfl rfl

/-- Modelled from the spec: the kind of a ChangeEvent (spec §3). -/
inductive EventKind
  | added
  | modified
  | removed
deriving DecidableEq

/-- Modelled from the spec: a ChangeEvent (spec §3) — ResourceID, kind, and
the new change counter. -/
structure ChangeEvent where
  id : Nat
  kind : EventKind
  counter : Nat
deriving DecidableEq

/-- Modelled from the spec: the arguments of one `store` call, as an element
of an operation sequence. -/
structure StoreOp where
  id : Nat
  props : List (String × String)
  payload : List Nat
deriving DecidableEq

/-- Modelled from the spec: the ChangeEvents one store emits (spec §3, §4.4) —
`Added` at counter 0 for a new resource, `Modified` at the bumped counter on
a content change, and nothing for a byte-identical no-op write (counter
transitions are what ChangeEvents broadcast). -/
def storeEvents (db : SourceDB) (op : StoreOp) : List ChangeEvent :=
  match db op.id with
  | none => [⟨op.id, EventKind.added, 0⟩]
  | some r =>
      if contentHash op.payload = r.hash then []
      else [⟨op.id, EventKind.modified, r.counter + 1⟩]

/-- Modelled from the spec: run a sequence of store operations, collecting
the emitted ChangeEvents in emission order. -/
def runStores (db : SourceDB) : List StoreOp → SourceDB × List ChangeEvent
  | [] => (db, [])
  | op :: ops =>
      ((runStores (store db op.id op.props op.payload).1 ops).1,
        storeEvents db op ++ (runStores (store db op.id op.props op.payload).1 ops).2)

/-- The change counters carried by the events of one ResourceID, in order. -/
def countersFor (id : Nat) (evs : List ChangeEvent) : List Nat :=
  (evs.filter (fun e => e.id == id)).map ChangeEvent.counter

/-- The counter value the next ChangeEvent for a ResourceID would carry. -/
def nextCounter (db : SourceDB) (id : Nat) : Nat :=
  match db id with
  | none => 0
  | some r => r.counter + 1

lemma countersFor_append (id : Nat) (evs1 evs2 : List ChangeEvent) :
    countersFor id (evs1 ++ evs2) = countersFor id evs1 ++ countersFor id evs2 := by
  simp [countersFor, List.filter_append]

lemma store_apply_ne (db : SourceDB) (i : Nat) (p : List (String × String))
    (pl : List Nat) (j : Nat) (h : ¬ j = i) : (store db i p pl).1 j = db j := by
  unfold store
  cases hdb : db i
  · simp [SourceDB.set, h]
  · dsimp only
    split <;> simp [SourceDB.set, h]

lemma countersFor_single_ne (id i : Nat) (k : EventKind) (c : Nat) (h : ¬ i = id) :
    countersFor id [⟨i, k, c⟩] = [] := by
  simp [countersFor, h]

lemma countersFor_single_eq (i : Nat) (k : EventKind) (c : Nat) :
    countersFor i [⟨i, k, c⟩] = [c] := by
  simp [countersFor]

lemma nextCounter_store_self (db : SourceDB) (id : Nat) (p : List (String × String))
    (pl : List Nat) :
    nextCounter ((store db id p pl).1) id =
      match db id with
      | none => 1
      | some r => if contentHash pl = r.hash then r.counter + 1 else r.counter + 2 := by
  cases hdb : db id with
  | none =>
    unfold store nextCounter
    rw [hdb]
    simp [SourceDB.set]
  | some r =>
    unfold store nextCounter
    rw [hdb]
    by_cases hh : contentHash pl = r.hash <;> simp [SourceDB.set, hh]

lemma runStores_counters (ops : List StoreOp) (db : SourceDB) (id : Nat) :
    List.Chain' (· < ·) (countersFor id (runStores db ops).2) ∧
    ∀ c ∈ countersFor id (runStores db ops).2, nextCounter db id ≤ c := by
  induction ops generalizing db with
  | nil => simp [runStores, countersFor]
  | cons op ops ih =>
    obtain ⟨ihc, ihb⟩ := ih (store db op.id op.props op.payload).1
    have hnc := nextCounter_store_self db op.id op.props op.payload
    by_cases hop : op.id = id
    · subst hop
      simp only [runStores, countersFor_append]
      cases hdb : db op.id with
      | none =>
        rw [hdb] at hnc
        dsimp only at hnc
        rw [hnc] at ihb
        have hevs : countersFor op.id (storeEvents db op) = [0] := by
          unfold storeEvents
          rw [hdb]
          exact countersFor_single_eq op.id EventKind.added 0
        rw [hevs, List.singleton_append]
        have hnc0 : nextCounter db op.id = 0 := by
          unfold nextCounter
          rw [hdb]
        constructor
        · cases hrc : countersFor op.id (runStores (store db op.id op.props op.payload).1 ops).2 with
          | nil => simp
          | cons b l =>
            rw [List.chain'_cons]
            refine ⟨?_, hrc ▸ ihc⟩
            have hb : 1 ≤ b := ihb b (by rw [hrc]; exact List.mem_cons_self b l)
            omega
        · intro c hc
          rw [hnc0]
          exact Nat.zero_le c
      | some r =>
        rw [hdb] at hnc
        dsimp only at hnc
        have hncr : nextCounter db op.id = r.counter + 1 := by
          unfold nextCounter
          rw [hdb]
        by_cases hh : contentHash op.payload = r.hash
        · rw [if_pos hh] at hnc
          rw [hnc] at ihb
          have hevs : countersFor op.id (storeEvents db op) = [] := by
            unfold storeEvents
            rw [hdb]
            dsimp only
            rw [if_pos hh]
            simp [countersFor]
          rw [hevs, List.nil_append]
          refine ⟨ihc, ?_⟩
          intro c hc
          rw [hncr]
          exact ihb c hc
        · rw [if_neg hh] at hnc
          rw [hnc] at ihb
          have hevs : countersFor op.id (storeEvents db op) = [r.counter + 1] := by
            unfold storeEvents
            rw [hdb]
            dsimp only
            rw [if_neg hh]
            exact countersFor_single_eq op.id EventKind.modified (r.counter + 1)
          rw [hevs, List.singleton_append]
          constructor
          · cases hrc : countersFor op.id (runStores (store db op.id op.props op.payload).1 ops).2 with
            | nil => simp
            | cons b l =>
              rw [List.chain'_cons]
              refine ⟨?_, hrc ▸ ihc⟩
              have hb : r.counter + 2 ≤ b := ihb b (by rw [hrc]; exact List.mem_cons_self b l)
              omega
          · intro c hc
            rw [hncr]
            rcases List.mem_cons.mp hc with rfl | hc
            · omega
            · have := ihb c hc
              omega
    · have hevs : countersFor id (storeEvents db op) = [] := by
        unfold storeEvents
        cases db op.id with
        | none => exact countersFor_single_ne id op.id EventKind.added 0 hop
        | some r =>
          dsimp only
          split
          · simp [countersFor]
          · exact countersFor_single_ne id op.id EventKind.modified (r.counter + 1) hop
      have hdb2 : (store db op.id op.props op.payload).1 id = db id :=
        store_apply_ne db op.id op.props op.payload id (fun h => hop h.symm)
      have hnc2 : nextCounter (store db op.id op.props op.payload).1 id = nextCounter db id := by
        unfold nextCounter
        rw [hdb2]
      simp only [runStores, countersFor_append]
      rw [hevs, List.nil_append]
      exact ⟨ihc, fun c hc => hnc2 ▸ ihb c hc⟩

/-- C5: starting from the empty source backend, along any sequence of store
operations the change counters carried by the ChangeEvents of any fixed
ResourceID are strictly increasing, and in particular no two events for the
same ResourceID carry equal counters. -/
theorem change_events_strictly_increasing (ops : List StoreOp) (id : Nat) :
    List.Chain' (· < ·) (countersFor id (runStores (fun _ => none) ops).2) ∧
    List.Pairwise (· ≠ ·) (countersFor id (runStores (fun _ => none) ops).2) := by
  obtain ⟨hc, _⟩ := runStores_counters ops (fun _ => none) id
  refine ⟨hc, ?_⟩
  have hp : List.Pairwise (· < ·) (countersFor id (runStores (fun _ => none) ops).2) :=
    List.chain'_iff_pairwise.mp hc
  exact List.Pairwise.imp (fun hab => Nat.ne_of_lt hab) hp

/-- Modelled from the spec: a ResourceKey (spec §3) — ResourceID, platform
tag and compiler-version, the addressing unit for a compiled artifact. -/
structure ResourceKey where
  rid : Nat
  platformTag : Nat
  keyVersion : Nat
deriving DecidableEq

/-- Modelled from the spec: a CompiledRecord (spec §3) — key, artifact
payload, the source change counter at compile time, and the
compiler-version. -/
structure CompiledRecord where
  key : ResourceKey
  artifact : List Nat
  srcCounter : Nat
  version : Nat
deriving DecidableEq

/-- Modelled from the spec: the state the Compiled Backend's staleness check
sees (spec §4.4-§4.6) — the live per-ResourceID change counters of the
Change Tracker, the stored compiled records, and the pipeline's current
compiler-version constant. -/
structure PipelineState where
  liveCounter : Nat → Nat
  compiled : ResourceKey → Option CompiledRecord
  currentVersion : Nat

/-- Modelled from the spec: result alternatives of `get(ResourceKey)`
(spec §4.6). -/
inductive GetResult
  | ok (r : CompiledRecord)
  | stale
  | notFound
deriving DecidableEq

/-- Modelled from the spec: `get(ResourceKey) -> CompiledRecord | Stale |
NotFound` (spec §4.6) — `Stale` when a record exists but its stored source
change counter is behind the live counter or its compiler-version is behind
current; otherwise the record is returned. -/
def get (st : PipelineState) (key : ResourceKey) : GetResult :=
  match st.compiled key with
  | none => GetResult.notFound
  | some r =>
      if r.srcCounter < st.liveCounter key.rid ∨ r.version < st.currentVersion then
        GetResult.stale
      else GetResult.ok r

/-- Modelled from the spec: the pipeline transitions that affect staleness —
a source mutation bumps the live change counter (spec §4.4), a compile
stores a record tagged with the current counter and current compiler-version
(spec §4.5 step 4, `put` of §4.6), and an incompatible compiler change bumps
the version constant (spec §4.5). -/
inductive PStep : PipelineState → PipelineState → Prop
  | mutate (st : PipelineState) (id : Nat) :
      PStep st { st with
        liveCounter := fun i => if i = id then st.liveCounter i + 1 else st.liveCounter i }
  | put (st : PipelineState) (key : ResourceKey) (artifact : List Nat) :
      PStep st { st with
        compiled := fun k =>
          if k = key then some ⟨key, artifact, st.liveCounter key.rid, st.currentVersion⟩
          else st.compiled k }
  | upgrade (st : PipelineState) :
      PStep st { st with currentVersion := st.currentVersion + 1 }

/-- Modelled from the spec: pipeline states reachable from an initial state
with empty compiled store and zeroed change counters. -/
inductive PReachable : PipelineState → Prop
  | init (v : Nat) : PReachable ⟨fun _ => 0, fun _ => none, v⟩
  | step {s1 s2 : PipelineState} : PReachable s1 → PStep s1 s2 → PReachable s2

lemma compiled_record_bounds {st : PipelineState} (h : PReachable st) :
    ∀ key r, st.compiled key = some r →
      r.srcCounter ≤ st.liveCounter key.rid ∧ r.version ≤ st.currentVersion := by
  induction h with
  | init v =>
    intro key r hr
    simp at hr
  | step hr hs ih =>
    cases hs with
    | mutate id =>
      intro key r hrec
      have hb := ih key r hrec
      dsimp only
      by_cases hid : key.rid = id
      · rw [if_pos hid]
        exact ⟨Nat.le_succ_of_le hb.1, hb.2⟩
      · rw [if_neg hid]
        exact hb
    | put key2 artifact =>
      intro key r hrec
      dsimp only at hrec
      by_cases hk : key = key2
      · rw [if_pos hk] at hrec
        injection hrec with hrec
        subst hrec
        subst hk
        exact ⟨Nat.le_refl _, Nat.le_refl _⟩
      · rw [if_neg hk] at hrec
        exact ih key r hrec
    | upgrade =>
      intro key r hrec
      have hb := ih key r hrec
      exact ⟨hb.1, Nat.le_succ_of_le hb.2⟩

/-- C4: in every reachable pipeline state, a CompiledRecord returned as OK by
the Compiled Backend's get has its stored source change counter equal to the
live counter of its ResourceID (and its compiler-version equal to the
current one); a stored record whose counter or compiler-version is behind
yields Stale instead. -/
theorem get_ok_matches_live_counter (st : PipelineState) (h : PReachable st)
    (key : ResourceKey) (r : CompiledRecord) :
    (get st key = GetResult.ok r →
      r.srcCounter = st.liveCounter key.rid ∧ r.version = st.currentVersion) ∧
    (st.compiled key = some r →
      (r.srcCounter < st.liveCounter key.rid ∨ r.version < st.currentVersion) →
      get st key = GetResult.stale) := by
  constructor
  · intro hok
    unfold get at hok
    cases hrec : st.compiled key with
    | none =>
      rw [hrec] at hok
      simp at hok
    | some r2 =>
      rw [hrec] at hok
      dsimp only at hok
      by_cases hbehind : r2.srcCounter < st.liveCounter key.rid ∨ r2.version < st.currentVersion
      · rw [if_pos hbehind] at hok
        simp at hok
      · rw [if_neg hbehind] at hok
        injection hok with hok
        subst hok
        push_neg at hbehind
        have hb := compiled_record_bounds h key r2 hrec
        exact ⟨Nat.le_antisymm hb.1 hbehind.1, Nat.le_antisymm hb.2 hbehind.2⟩
  · intro hrec hbehind
    unfold get
    rw [hrec]
    dsimp only
    rw [if_pos hbehind]

/-- A concrete key used by the pipeline witnesses. -/
def sampleKey : ResourceKey := ⟨1, 2, 3⟩

/-- The initial pipeline state used by the witness, compiler-version 3. -/
def pst0 : PipelineState := ⟨fun _ => 0, fun _ => none, 3⟩

/-- The pipeline state after compiling and storing an artifact for
`sampleKey` in `pst0`. -/
def pst1 : PipelineState :=
  { pst0 with
    compiled := fun k =>
      if k = sampleKey then some ⟨sampleKey, [9], pst0.liveCounter sampleKey.rid, pst0.currentVersion⟩
      else pst0.compiled k }

/-- The record stored in `pst1` for `sampleKey`. -/
def sampleCompiled : CompiledRecord := ⟨sampleKey, [9], 0, 3⟩

/-- Witness for C4: in the concrete reachable state `pst1`, get returns the
stored record as OK and its counter and version match the live ones. -/
theorem get_ok_matches_live_counter_witness :
    sampleCompiled.srcCounter = pst1.liveCounter sampleKey.rid ∧
    sampleCompiled.version = pst1.currentVersion :=
  (get_ok_matches_live_counter pst1
      (PReachable.step (PReachable.init 3) (PStep.put pst0 sampleKey [9]))
      sampleKey sampleCompiled).1 rfl

/-- Modelled from the spec: the deterministic compile transform (spec §2,
§4.5) producing the artifact bytes for a ResourceKey. -/
def transform (key : ResourceKey) : List Nat :=
  [key.rid, key.platformTag, key.keyVersion, 0]

/-- Modelled from the spec: the single-flight compile registry (spec §4.5,
§9) — the cache of completed results, the per-key waiter list of the
in-flight compile (`none` when no compile is in flight), the number of
transform executions started per key, and the deliveries made to callers as
`(caller, key, artifact)` triples. -/
structure SFState where
  cache : ResourceKey → Option (List Nat)
  inflight : ResourceKey → Option (List Nat)
  execs : ResourceKey → Nat
  delivered : List (Nat × ResourceKey × List Nat)

/-- Modelled from the spec: the observable events of the single-flight
protocol — a caller requesting the compile of a key, and the completion of
the in-flight compile of a key. -/
inductive SFOp
  | request (caller : Nat) (key : ResourceKey)
  | complete (key : ResourceKey)
deriving DecidableEq

/-- The key an operation concerns. -/
def SFOp.key : SFOp → ResourceKey
  | SFOp.request _ k => k
  | SFOp.complete k => k

/-- Modelled from the spec: one step of the single-flight registry (spec
§4.5, §9) — a request for a cached key is answered from the cache; a request
for a key with an in-flight compile attaches as an additional waiter rather
than starting new work; otherwise the request starts the transform (counted
in `execs`) and registers as first waiter; a completion caches the transform
result and delivers it to every waiter. -/
def sfStep (st : SFState) : SFOp → SFState
  | SFOp.request c k =>
    match st.cache k with
    | some r => { st with delivered := st.delivered ++ [(c, k, r)] }
    | none =>
      match st.inflight k with
      | some ws =>
          { st with
            inflight := fun k2 => if k2 = k then some (ws ++ [c]) else st.inflight k2 }
      | none =>
          { st with
            inflight := fun k2 => if k2 = k then some [c] else st.inflight k2,
            execs := fun k2 => if k2 = k then st.execs k2 + 1 else st.execs k2 }
  | SFOp.complete k =>
    match st.inflight k with
    | none => st
    | some ws =>
        { st with
          cache := fun k2 => if k2 = k then some (transform k) else st.cache k2,
          inflight := fun k2 => if k2 = k then none else st.inflight k2,
          delivered := st.delivered ++ ws.map (fun c => (c, k, transform k)) }

/-- The empty single-flight registry. -/
def sfInit : SFState := ⟨fun _ => none, fun _ => none, fun _ => 0, []⟩

/-- Run a sequence of single-flight events from the empty registry. -/
def sfRun (ops : List SFOp) : SFState := ops.foldl sfStep sfInit

/-- Invariant of the single-flight registry: the execution count of a key is
one exactly when the key has a cached result or an in-flight compile (and
zero otherwise), a key never has both a cached result and an in-flight
compile, the cache holds only transform results, and every delivery carries
the transform result of its key. -/
def SFInv (st : SFState) : Prop :=
  (∀ k, st.execs k = if st.cache k = none ∧ st.inflight k = none then 0 else 1) ∧
  (∀ k, st.cache k = none ∨ st.inflight k = none) ∧
  (∀ k r, st.cache k = some r → r = transform k) ∧
  (∀ d ∈ st.delivered, d.2.2 = transform d.2.1)

lemma sfInv_init : SFInv sfInit := by
  refine ⟨fun k => by simp [sfInit], fun k => Or.inl rfl, fun k r h => by simp [sfInit] at h,
    fun d hd => by simp [sfInit] at hd⟩

lemma sfInv_step (st : SFState) (op : SFOp) (h : SFInv st) : SFInv (sfStep st op) := by
  obtain ⟨h1, h2, h3, h4⟩ := h
  cases op with
  | request c k =>
    cases hc : st.cache k with
    | some r =>
      unfold sfStep
      dsimp only
      rw [hc]
      dsimp only
      refine ⟨h1, h2, h3, ?_⟩
      intro d hd
      rcases List.mem_append.mp hd with hd | hd
      · exact h4 d hd
      · rcases List.mem_singleton.mp hd with rfl
        exact h3 k r hc
    | none =>
      cases hi : st.inflight k with
      | some ws =>
        unfold sfStep
        dsimp only
        rw [hc]
        dsimp only
        rw [hi]
        dsimp only
        refine ⟨?_, ?_, h3, h4⟩
        · intro k2
          dsimp only
          by_cases hk : k2 = k
          · subst hk
            simp [hc, hi, h1 k2]
          · simp [hk, h1 k2]
        · intro k2
          dsimp only
          by_cases hk : k2 = k
          · subst hk
            exact Or.inl hc
          · simp only [if_neg hk]
            exact h2 k2
      | none =>
        unfold sfStep
        dsimp only
        rw [hc]
        dsimp only
        rw [hi]
        dsimp only
        refine ⟨?_, ?_, h3, h4⟩
        · intro k2
          dsimp only
          by_cases hk : k2 = k
          · subst hk
            simp [hc, hi, h1 k2]
          · simp [hk, h1 k2]
        · intro k2
          dsimp only
          by_cases hk : k2 = k
          · subst hk
            exact Or.inl hc
          · simp only [if_neg hk]
            exact h2 k2
  | complete k =>
    cases hi : st.inflight k with
    | none =>
      unfold sfStep
      dsimp only
      rw [hi]
      dsimp only
      exact ⟨h1, h2, h3, h4⟩
    | some ws =>
      have hc : st.cache k = none := by
        rcases h2 k with hh | hh
        · exact hh
        · rw [hh] at hi
          exact absurd hi (by simp)
      unfold sfStep
      dsimp only
      rw [hi]
      dsimp only
      refine ⟨?_, ?_, ?_, ?_⟩
      · intro k2
        dsimp only
        by_cases hk : k2 = k
        · subst hk
          simp [hc, hi, h1 k2]
        · simp [hk, h1 k2]
      · intro k2
        dsimp only
        by_cases hk : k2 = k
        · subst hk
          simp
        · simp only [if_neg hk]
          exact h2 k2
      · intro k2 r hr
        dsimp only at hr
        by_cases hk : k2 = k
        · subst hk
          rw [if_pos rfl] at hr
          injection hr with hr
          exact hr.symm
        · rw [if_neg hk] at hr
          exact h3 k2 r hr
      · intro d hd
        dsimp only at hd
        rcases List.mem_append.mp hd with hd | hd
        · exact h4 d hd
        · rcases List.mem_map.mp hd with ⟨c, _, rfl⟩
          rfl

/-- A key counts as started when it has a cached result or an in-flight
compile. -/
def SFStarted (st : SFState) (k : ResourceKey) : Prop :=
  ¬ (st.cache k = none ∧ st.inflight k = none)

lemma sfStep_started_mono (st : SFState) (op : SFOp) (k : ResourceKey)
    (h : SFStarted st k) : SFStarted (sfStep st op) k := by
  cases op with
  | request c k2 =>
    cases hc : st.cache k2 with
    | some r =>
      unfold sfStep
      dsimp only
      rw [hc]
      dsimp only
      exact h
    | none =>
      cases hi : st.inflight k2 with
      | some ws =>
        unfold sfStep
        dsimp only
        rw [hc]
        dsimp only
        rw [hi]
        dsimp only
        rintro ⟨hc2, hi2⟩
        dsimp only at hc2 hi2
        apply h
        refine ⟨hc2, ?_⟩
        by_cases hk : k = k2
        · rw [if_pos hk] at hi2
          exact absurd hi2 (by simp)
        · rw [if_neg hk] at hi2
          exact hi2
      | none =>
        unfold sfStep
        dsimp only
        rw [hc]
        dsimp only
        rw [hi]
        dsimp only
        rintro ⟨hc2, hi2⟩
        dsimp only at hc2 hi2
        apply h
        refine ⟨hc2, ?_⟩
        by_cases hk : k = k2
        · rw [if_pos hk] at hi2
          exact absurd hi2 (by simp)
        · rw [if_neg hk] at hi2
          exact hi2
  | complete k2 =>
    cases hi : st.inflight k2 with
    | none =>
      unfold sfStep
      dsimp only
      rw [hi]
      dsimp only
      exact h
    | some ws =>
      unfold sfStep
      dsimp only
      rw [hi]
      dsimp only
      rintro ⟨hc2, hi2⟩
      dsimp only at hc2 hi2
      by_cases hk : k = k2
      · rw [if_pos hk] at hc2
        exact absurd hc2 (by simp)
      · rw [if_neg hk] at hc2
        rw [if_neg hk] at hi2
        exact h ⟨hc2, hi2⟩

lemma sfStep_request_started (st : SFState) (c : Nat) (k : ResourceKey) :
    SFStarted (sfStep st (SFOp.request c k)) k := by
  cases hc : st.cache k with
  | some r =>
    unfold sfStep
    dsimp only
    rw [hc]
    dsimp only
    rintro ⟨hc2, hi2⟩
    dsimp only at hc2
    rw [hc] at hc2
    exact Option.noConfusion hc2
  | none =>
    cases hi : st.inflight k with
    | some ws =>
      unfold sfStep
      dsimp only
      rw [hc]
      dsimp only
      rw [hi]
      dsimp only
      rintro ⟨hc2, hi2⟩
      dsimp only at hi2
      rw [if_pos rfl] at hi2
      exact Option.noConfusion hi2
    | none =>
      unfold sfStep
      dsimp only
      rw [hc]
      dsimp only
      rw [hi]
      dsimp only
      rintro ⟨hc2, hi2⟩
      dsimp only at hi2
      rw [if_pos rfl] at hi2
      exact Option.noConfusion hi2

lemma sfFold_inv (ops : List SFOp) (st : SFState) (h : SFInv st) :
    SFInv (ops.foldl sfStep st) := by
  induction ops generalizing st with
  | nil => exact h
  | cons op ops ih => exact ih (sfStep st op) (sfInv_step st op h)

lemma sfFold_started (ops : List SFOp) (st : SFState) (k : ResourceKey)
    (h : SFStarted st k) : SFStarted (ops.foldl sfStep st) k := by
  induction ops generalizing st with
  | nil => exact h
  | cons op ops ih => exact ih (sfStep st op) (sfStep_started_mono st op k h)

lemma sfFold_request_started (ops : List SFOp) (c : Nat) (k : ResourceKey) :
    ∀ st : SFState, SFOp.request c k ∈ ops → SFStarted (ops.foldl sfStep st) k := by
  induction ops with
  | nil =>
    intro st hmem
    simp at hmem
  | cons op ops ih =>
    intro st hmem
    rcases List.mem_cons.mp hmem with heq | hmem2
    · subst heq
      exact sfFold_started ops _ k (sfStep_request_started st c k)
    · exact ih (sfStep st op) hmem2

lemma sfStep_other_key (st : SFState) (op : SFOp) (k : ResourceKey)
    (h : ¬ op.key = k) :
    (sfStep st op).cache k = st.cache k ∧ (sfStep st op).inflight k = st.inflight k ∧
      (sfStep st op).execs k = st.execs k := by
  cases op with
  | request c k2 =>
    have hk : ¬ k = k2 := fun he => h (by simp [SFOp.key, he])
    cases hc : st.cache k2 with
    | some r =>
      unfold sfStep
      dsimp only
      rw [hc]
      exact ⟨rfl, rfl, rfl⟩
    | none =>
      cases hi : st.inflight k2 with
      | some ws =>
        unfold sfStep
        dsimp only
        rw [hc]
        dsimp only
        rw [hi]
        exact ⟨rfl, by dsimp only; rw [if_neg hk], rfl⟩
      | none =>
        unfold sfStep
        dsimp only
        rw [hc]
        dsimp only
        rw [hi]
        exact ⟨rfl, by dsimp only; rw [if_neg hk], by dsimp only; rw [if_neg hk]⟩
  | complete k2 =>
    have hk : ¬ k = k2 := fun he => h (by simp [SFOp.key, he])
    cases hi : st.inflight k2 with
    | none =>
      unfold sfStep
      dsimp only
      rw [hi]
      exact ⟨rfl, rfl, rfl⟩
    | some ws =>
      unfold sfStep
      dsimp only
      rw [hi]
      exact ⟨by dsimp only; rw [if_neg hk], by dsimp only; rw [if_neg hk], rfl⟩

/-- C6: single-flight — if any compile request for a key occurs in a run from
the empty registry, the transform for that key executes exactly once; every
delivery for the key carries the one transform result, so all callers receive
the same record; and a step concerning a different key leaves the key's
cache, in-flight and execution state untouched (keys proceed
independently). -/
theorem compile_single_flight (ops : List SFOp) (k : ResourceKey) :
    ((∃ c, SFOp.request c k ∈ ops) → (sfRun ops).execs k = 1) ∧
    (∀ c r, (c, k, r) ∈ (sfRun ops).delivered → r = transform k) ∧
    (∀ st : SFState, ∀ op : SFOp, ¬ op.key = k →
      (sfStep st op).cache k = st.cache k ∧ (sfStep st op).inflight k = st.inflight k ∧
        (sfStep st op).execs k = st.execs k) := by
  have hinv : SFInv (sfRun ops) := sfFold_inv ops sfInit sfInv_init
  refine ⟨?_, ?_, fun st op h => sfStep_other_key st op k h⟩
  · rintro ⟨c, hmem⟩
    have hst : SFStarted (sfRun ops) k := sfFold_request_started ops c k sfInit hmem
    rw [hinv.1 k, if_neg hst]
  · intro c r hd
    exact hinv.2.2.2 (c, k, r) hd

/-- A concrete key used by the single-flight witness. -/
def sfKey : ResourceKey := ⟨4, 5, 6⟩

/-- Witness for C6 on a concrete run: two concurrent requests for the same
key followed by the completion execute the transform once; the first
delivered artifact is the transform result; a request for a different key
leaves the key's cache untouched. -/
theorem compile_single_flight_witness :
    (sfRun [SFOp.request 10 sfKey, SFOp.request 11 sfKey, SFOp.complete sfKey]).execs sfKey = 1 ∧
    transform sfKey = transform sfKey ∧
    (sfStep sfInit (SFOp.request 10 ⟨7, 7, 7⟩)).cache sfKey = sfInit.cache sfKey :=
  ⟨(compile_single_flight [SFOp.request 10 sfKey, SFOp.request 11 sfKey,
      SFOp.complete sfKey] sfKey).1 ⟨10, by decide⟩,
   (compile_single_flight [SFOp.request 10 sfKey, SFOp.request 11 sfKey,
      SFOp.complete sfKey] sfKey).2.1 10 (transform sfKey) (by decide),
   ((compile_single_flight [SFOp.request 10 sfKey, SFOp.request 11 sfKey,
      SFOp.complete sfKey] sfKey).2.2 sfInit (SFOp.request 10 ⟨7, 7, 7⟩) (by decide)).1⟩

/-- Modelled from the spec: building a Bundle (spec §3, §6) — an ordered
snapshot of `(ResourceKey, artifact bytes)` pairs taken from the compiled
cache for the requested keys, in order; keys without a cached artifact
contribute nothing. -/
def buildBundle (cache : ResourceKey → Option (List Nat)) :
    List ResourceKey → List (ResourceKey × List Nat)
  | [] => []
  | k :: rest =>
    match cache k with
    | none => buildBundle cache rest
    | some a => (k, a) :: buildBundle cache rest

/-- Modelled from the spec: the serialized archive form of one bundle entry —
the three ResourceKey components, the artifact length, then the artifact
bytes (length-prefixed framing in the style of spec §4.7). -/
def encodeEntry (e : ResourceKey × List Nat) : List Nat :=
  [e.1.rid, e.1.platformTag, e.1.keyVersion, e.2.length] ++ e.2

/-- Modelled from the spec: the serialized archive — the concatenation of the
encoded entries. -/
def encodeBundle : List (ResourceKey × List Nat) → List Nat
  | [] => []
  | e :: rest => encodeEntry e ++ encodeBundle rest

/-- Modelled from the spec: unpacking — read the given number of
length-prefixed entries back from the archive stream. -/
def decodeEntries : Nat → List Nat → List (ResourceKey × List Nat)
  | 0, _ => []
  | n + 1, rid :: pt :: kv :: len :: rest =>
      (⟨rid, pt, kv⟩, rest.take len) :: decodeEntries n (rest.drop len)
  | _ + 1, _ => []

/-- Modelled from the spec: a packed Bundle — the entry count and the
archive stream. -/
def packBundle (cache : ResourceKey → Option (List Nat)) (keys : List ResourceKey) :
    Nat × List Nat :=
  ((buildBundle cache keys).length, encodeBundle (buildBundle cache keys))

/-- Modelled from the spec: unpacking a packed Bundle into its entries. -/
def unpackBundle (b : Nat × List Nat) : List (ResourceKey × List Nat) :=
  decodeEntries b.1 b.2

/-- Find the artifact bytes of a key among unpacked bundle entries. -/
def lookupArtifact (key : ResourceKey) : List (ResourceKey × List Nat) → Option (List Nat)
  | [] => none
  | (k, a) :: rest => if k = key then some a else lookupArtifact key rest

lemma decodeEntries_encodeBundle (entries : List (ResourceKey × List Nat)) :
    decodeEntries entries.length (encodeBundle entries) = entries := by
  induction entries with
  | nil => rfl
  | cons e rest ih =>
    obtain ⟨⟨rid, pt, kv⟩, a⟩ := e
    have henc : encodeBundle ((⟨⟨rid, pt, kv⟩, a⟩ : ResourceKey × List Nat) :: rest) =
        rid :: pt :: kv :: a.length :: (a ++ encodeBundle rest) := by
      simp [encodeBundle, encodeEntry]
    rw [List.length_cons, henc]
    unfold decodeEntries
    rw [List.take_left, List.drop_left, ih]

lemma lookupArtifact_buildBundle (cache : ResourceKey → Option (List Nat))
    (keys : List ResourceKey) (key : ResourceKey) (art : List Nat)
    (hmem : key ∈ keys) (hc : cache key = some art) :
    lookupArtifact key (buildBundle cache keys) = some art := by
  induction keys with
  | nil => simp at hmem
  | cons k rest ih =>
    cases hck : cache k with
    | none =>
      have hb : buildBundle cache (k :: rest) = buildBundle cache rest := by
        simp only [buildBundle]
        rw [hck]
      rw [hb]
      rcases List.mem_cons.mp hmem with rfl | hmem2
      · rw [hck] at hc
        exact Option.noConfusion hc
      · exact ih hmem2
    | some a =>
      have hb : buildBundle cache (k :: rest) = (k, a) :: buildBundle cache rest := by
        simp only [buildBundle]
        rw [hck]
      rw [hb]
      unfold lookupArtifact
      by_cases hk : k = key
      · rw [if_pos hk]
        rw [hk] at hck
        rw [hck] at hc
        injection hc with hc
        rw [hc]
      · rw [if_neg hk]
        rcases List.mem_cons.mp hmem with rfl | hmem2
        · exact absurd rfl hk
        · exact ih hmem2

/-- C7: bundle/unpack round-trip — for a set of ResourceKeys without internal
ResourceID duplication, unpacking the packed Bundle built from the compiled
cache reproduces, for every key of the set whose artifact was cached,
byte-identical artifact bytes. -/
theorem bundle_roundtrip (cache : ResourceKey → Option (List Nat))
    (keys : List ResourceKey) (key : ResourceKey) (art : List Nat)
    (_hnodup : (keys.map ResourceKey.rid).Nodup)
    (hmem : key ∈ keys) (hc : cache key = some art) :
    lookupArtifact key (unpackBundle (packBundle cache keys)) = some art := by
  unfold unpackBundle packBundle
  rw [decodeEntries_encodeBundle]
  exact lookupArtifact_buildBundle cache keys key art hmem hc

/-- Keys used by the bundle witness. -/
def bundleKey1 : ResourceKey := ⟨1, 0, 1⟩

/-- Second key used by the bundle witness. -/
def bundleKey2 : ResourceKey := ⟨2, 0, 1⟩

/-- A concrete two-artifact compiled cache for the bundle witness. -/
def bundleCache : ResourceKey → Option (List Nat) := fun k =>
  if k = bundleKey1 then some [10, 11] else if k = bundleKey2 then some [12] else none

/-- Witness for C7 on a concrete bundle of two artifacts. -/
theorem bundle_roundtrip_witness :
    lookupArtifact bundleKey2
      (unpackBundle (packBundle bundleCache [bundleKey1, bundleKey2])) = some [12] :=
  bundle_roundtrip bundleCache [bundleKey1, bundleKey2] bundleKey2 [12]
    (by decide) (by decide) (by decide)

end ResourceLib
